import Mathlib

/-!
Verification of the Cargo-Tesseract client (`src/main.rs`) against its
natural-language specification.  The Rust source is shallowly embedded:
pure fragments become Lean functions, the effectful parts (network
session, retry loop, filesystem writes) become explicit traces or state
transformers.  Strings that travel on the wire are modelled by their
byte content (`List Nat`), paths by their character content
(`List Char`) or by component lists (`List String`), machine integers
by `Nat` with explicit bounds where overflow matters.
-/

namespace Tesseract

/-! ## Data model (src/main.rs lines 56-95)

`BuildUnit`, `BuildRequest` and `BuildResponse` as declared in the
source.  Rust `String` and `PathBuf` fields are modelled by their UTF-8
byte content (`List Nat`); `Vec<u8>` likewise. -/

structure BuildUnit where
  package_name : List Nat
  dependencies : List (List Nat)
  source_files : List (List Nat)
  artifacts : List (List Nat)
deriving DecidableEq, Repr

inductive BuildRequest where
  | BuildUnitReq (unit : BuildUnit) (release : Bool) (target : Option (List Nat))
      (tarball_data : List Nat)
  | TransferArtifact (from_unit : List Nat) (artifact_path : List Nat)
  | Heartbeat
deriving DecidableEq, Repr

inductive BuildResponse where
  | BuildOutput (unit_name : List Nat) (output : List Nat) (is_error : Bool)
  | BuildComplete (unit_name : List Nat) (artifacts : List (List Nat × List Nat))
  | BuildError (unit_name : List Nat) (error : List Nat)
  | HeartbeatAck
deriving DecidableEq, Repr

/-- ASCII helper used only to build concrete example values: the UTF-8
bytes of an ASCII string. -/
def asciiBytes (s : String) : List Nat := s.toList.map Char.toNat

/-! ## Retry Controller (src/main.rs lines 495-527, `TesseractClient::build`)

The loop
```
for unit in units {
    let mut last_error = None;
    for attempt in 1..=self.retries {
        match self.build_unit(unit.clone(), attempt).await {
            Ok(_) => { last_error = None; break; }
            Err(e) => { last_error = Some(e);
                        if attempt < self.retries { sleep(2 s); } }
        }
    }
    if let Some(e) = last_error {
        return Err(e.context("Failed to build {pkg} after {retries} attempts"));
    }
}
Ok(())
```
is embedded as a trace-producing function.  `sessionOk pkg n` is the
oracle telling whether the `n`-th build session for package `pkg`
succeeds (the session itself performs the network I/O and is external
to this loop).  The produced trace records each attempted session and
each sleep, in order. -/

inductive BuildEvent where
  | attempt (package : List Nat) (n : Nat)
  | sleep (secs : Nat)
deriving DecidableEq, Repr

inductive BuildResult where
  | ok
  | err (package : List Nat) (attempts : Nat)
deriving DecidableEq, Repr

/-- One unit's `for attempt in 1..=retries` loop, iterating over the
remaining attempt numbers; `lastFailed` mirrors
`last_error.is_some()`.  Returns the event trace and the success flag
(`last_error.is_none()` at loop exit); a success breaks out of the
loop, a failure sleeps two seconds unless this was the last allowed
attempt (`attempt < retries`). -/
def attemptSeq (ok : Nat → Bool) (pkg : List Nat) (retries : Nat) :
    List Nat → Bool → List BuildEvent × Bool
  | [], lastFailed => ([], !lastFailed)
  | attempt :: more, _ =>
    if ok attempt then ([.attempt pkg attempt], true)
    else
      let rest := attemptSeq ok pkg retries more true
      (.attempt pkg attempt :: ((if attempt < retries then [.sleep 2] else []) ++ rest.1),
        rest.2)

/-- The whole retry loop for one unit: the range `1..=retries` is
`List.range' 1 retries`; `last_error` starts as `None`. -/
def buildUnitLoop (ok : Nat → Bool) (pkg : List Nat) (retries : Nat) :
    List BuildEvent × Bool :=
  attemptSeq ok pkg retries (List.range' 1 retries) false

/-- `TesseractClient::build` after discovery: process the discovered
units in order; on a unit whose loop ends with `last_error = Some _`,
abort the whole run with an error naming the package and the configured
retry count. -/
def buildAll (sessionOk : List Nat → Nat → Bool) (retries : Nat) :
    List BuildUnit → List BuildEvent × BuildResult
  | [] => ([], .ok)
  | u :: rest =>
    let r := buildUnitLoop (sessionOk u.package_name) u.package_name retries
    if r.2 then
      let r' := buildAll sessionOk retries rest
      (r.1 ++ r'.1, r'.2)
    else
      (r.1, .err u.package_name retries)

/-- Spec-side description of the trace of a unit whose every session
fails: `count` attempts numbered from `first`, a fixed 2-second sleep
between consecutive attempts and none after the last. -/
def failTrace (pkg : List Nat) (first count : Nat) : List BuildEvent :=
  match count with
  | 0 => []
  | 1 => [.attempt pkg first]
  | n + 2 => .attempt pkg first :: .sleep 2 :: failTrace pkg (first + 1) (n + 1)

/-- Per-unit loop trace, for stating the sequencing theorem. -/
def unitTrace (sessionOk : List Nat → Nat → Bool) (retries : Nat) (u : BuildUnit) :
    List BuildEvent :=
  (buildUnitLoop (sessionOk u.package_name) u.package_name retries).1

/-- Per-unit loop success flag. -/
def unitSucceeds (sessionOk : List Nat → Nat → Bool) (retries : Nat) (u : BuildUnit) :
    Bool :=
  (buildUnitLoop (sessionOk u.package_name) u.package_name retries).2

/-! ## Build Session (src/main.rs lines 457-493, `TesseractClient::build_unit`)

The session, in source order: connect to the server, set `TCP_NODELAY`,
create the source tarball, construct a single `BuildRequest::BuildUnit`
message, write its length prefix and payload, then read the response
stream.  The protocol-relevant actions are embedded as an ordered
trace. -/

inductive ClientAction where
  | connect (server_addr : List Nat)
  | send (msg : BuildRequest)
  | recvStream
deriving DecidableEq, Repr

/-- The ordered protocol actions of `build_unit` (the tarball bytes are
an input here: `create_tarball` is modelled separately). -/
def build_unit_actions (server_addr : List Nat) (unit : BuildUnit) (release : Bool)
    (target : Option (List Nat)) (tarball : List Nat) : List ClientAction :=
  [.connect server_addr,
   .send (.BuildUnitReq unit release target tarball),
   .recvStream]

/-- The requests `build_unit` writes to the wire, in order. -/
def build_unit_sent (server_addr : List Nat) (unit : BuildUnit) (release : Bool)
    (target : Option (List Nat)) (tarball : List Nat) : List BuildRequest :=
  (build_unit_actions server_addr unit release target tarball).filterMap fun a =>
    match a with
    | .send m => some m
    | _ => none

/-! ## Response-stream handling (src/main.rs lines 329-391,
`TesseractClient::handle_build_stream`)

One iteration of the frame loop, after a frame has been decoded:
`BuildOutput` prints a colored line and appends it to the progress
record, `BuildComplete` saves artifacts and terminates with success,
`BuildError` terminates with failure, and the source's `_ => {}` arm
(which covers exactly `HeartbeatAck`) does nothing and continues the
loop. -/

inductive StreamAction where
  | logLine (output : List Nat) (is_error : Bool)
  | finishOk (unit_name : List Nat) (artifacts : List (List Nat × List Nat))
  | finishErr (unit_name : List Nat) (error : List Nat)
  | noop
deriving DecidableEq, Repr

/-- The match on a decoded `BuildResponse` inside the stream loop. -/
def handleFrame : BuildResponse → StreamAction
  | .BuildOutput _ output is_error => .logLine output is_error
  | .BuildComplete unit_name artifacts => .finishOk unit_name artifacts
  | .BuildError unit_name error => .finishErr unit_name error
  | _ => .noop

/-! ## Artifact target paths (src/main.rs lines 358-370)

On `BuildComplete`, each artifact's destination is computed by a chain
of `PathBuf::join`s, duplicated over the two branches of
`if let Some(ref target) = self.target`.  Paths are modelled as lists
of components; `join` appends a component. -/

/-- `PathBuf::join` with a single relative component. -/
def pjoin (base : List String) (component : String) : List String :=
  base ++ [component]

/-- `PathBuf::join` with a relative sub-path. -/
def pjoinPath (base : List String) (sub : List String) : List String :=
  base ++ sub

/-- The destination path computed in `handle_build_stream`, with the
source's two branches. -/
def artifact_target_path (workspace_path : List String) (target : Option String)
    (release : Bool) (path : List String) : List String :=
  match target with
  | some t =>
    pjoinPath (pjoin (pjoin (pjoin workspace_path "target") t)
      (if release then "release" else "debug")) path
  | none =>
    pjoinPath (pjoin (pjoin workspace_path "target")
      (if release then "release" else "debug")) path

/-- The layout the specification describes:
`<root>/target/[<target-triple>/]<profile>/<relative path>` with
profile `release` or `debug`. -/
def specTargetPath (root : List String) (target : Option String) (release : Bool)
    (rel : List String) : List String :=
  root ++ ["target"] ++ target.toList ++
    [if release then "release" else "debug"] ++ rel

/-! ## Artifact materialization (src/main.rs lines 274-318,
`TesseractClient::write_artifact_safely`, non-Windows branch)

```
let tmp_path = path.with_extension(format!("{}.tmp", std::process::id()));
tokio::fs::write(&tmp_path, data).await?;
tokio::fs::rename(&tmp_path, path).await?;
```
The filesystem is a map from path strings to file contents; directories
are not tracked (`create_dir_all` only ensures parents exist).  Paths
are character lists; `with_extension` follows Rust's semantics on paths
with a non-empty file name: the file name's extension (the part after
its last `.`, a leading `.` of a hidden file not counting as a
separator) is replaced by the given extension. -/

def FS : Type := List Char → Option (List Nat)

/-- `tokio::fs::write`: create-or-truncate `p` with `data`. -/
def fsWrite (fs : FS) (p : List Char) (data : List Nat) : FS :=
  fun q => if q = p then some data else fs q

/-- `tokio::fs::rename`: atomically move `src` over `dst`. -/
def fsRename (fs : FS) (src dst : List Char) : FS :=
  fun q => if q = dst then fs src else if q = src then none else fs q

/-- The file-name component of a path (everything after the last
separator). -/
def fileNamePart (p : List Char) : List Char :=
  (p.reverse.takeWhile (· ≠ '/')).reverse

/-- The directory part of a path (everything up to and including the
last separator). -/
def dirPart (p : List Char) : List Char :=
  (p.reverse.dropWhile (· ≠ '/')).reverse

/-- `Path::file_stem` on a file name: the part before the last `.`,
except that a lone leading `.` (hidden file) is part of the stem and a
dot-free name is its own stem. -/
def stemOf (f : List Char) : List Char :=
  match f.reverse.dropWhile (· ≠ '.') with
  | [] => f
  | _ :: b => if b.isEmpty then f else b.reverse

/-- `Path::with_extension ext` for a path with a non-empty file name
and a non-empty `ext`. -/
def with_extension (p : List Char) (ext : List Char) : List Char :=
  dirPart p ++ stemOf (fileNamePart p) ++ '.' :: ext

/-- The temporary path `path.with_extension("{pid}.tmp")`; `pid` is the
decimal rendering of the process id. -/
def tmpPathOf (path : List Char) (pid : List Char) : List Char :=
  with_extension path (pid ++ ['.', 't', 'm', 'p'])

/-- `write_artifact_safely` (non-Windows branch): write the bytes to
the temporary sibling path, then rename it over the destination. -/
def write_artifact_safely (fs : FS) (path : List Char) (data : List Nat)
    (pid : List Char) : FS :=
  let tmp := tmpPathOf path pid
  fsRename (fsWrite fs tmp data) tmp path

/-! ## Ignore Engine (src/main.rs lines 144-182)

`read_gitignore` returns the built-in defaults `.git`, `target`,
`Cargo.lock` plus the trimmed non-blank, non-comment lines of the
workspace `.gitignore`.  `is_ignored` checks each pattern: after
trimming `/` from both ends, a pattern containing `*` is translated to
a regex by the three successive replacements `"."→"\\."`,
`"**/"→"(.*/)?"`, `"*"→"[^/]*"`, anchored as `^…$` and matched against
the path relative to the workspace root; a pattern without `*` matches
as a plain substring of the relative path.

The regex fragment modelled is the one reachable from this translation
on glob patterns made of ordinary characters: literal characters, the
escape `\.`, the single-character classes `.` (any character but a
newline) and `[^/]`, groups `( … )`, and the quantifiers `*`, `+`, `?`
on a single-character atom or (for `?`) on a group, with an optional
lazy marker `?` after `*`/`+`/`?` (laziness does not change the
accepted language under the `^…$` full anchoring).  It is given exact
language semantics and a derivative-based matcher.  Translated strings
outside the fragment — alternation `|`, classes other than `[^/]`,
brace repetitions, escapes other than `\.`, quantified groups
`(…)*`/`(…)+` — make the parser fail, which skips the pattern like a
failed `Regex::new`; this is a documented model boundary, since
`Regex::new` accepts some of those strings. -/

inductive CClass where
  | lit (c : Char) : CClass
  | anyc : CClass
  | nslash : CClass
deriving DecidableEq, Repr

/-- Does a single-character class accept a character?  `.` accepts any
character but a newline, `[^/]` any character but the separator. -/
def CClass.matchesChar : CClass → Char → Bool
  | .lit d, c => c = d
  | .anyc, c => c ≠ '\n'
  | .nslash, c => c ≠ '/'

inductive RE where
  | nul : RE
  | eps : RE
  | one (k : CClass) : RE
  | star (k : CClass) : RE
  | plus (k : CClass) : RE
  | seq (a b : RE) : RE
  | alt (a b : RE) : RE
deriving DecidableEq, Repr

namespace RE

/-- Exact language semantics of the regex fragment: `one k` is a
single character of class `k`, `star k` and `plus k` are `k*` and
`k+`. -/
inductive Match : RE → List Char → Prop
  | eps : Match .eps []
  | one {k : CClass} {c : Char} : k.matchesChar c = true → Match (.one k) [c]
  | star {k : CClass} {s : List Char} :
      (∀ c ∈ s, k.matchesChar c = true) → Match (.star k) s
  | plus {k : CClass} {s : List Char} :
      s ≠ [] → (∀ c ∈ s, k.matchesChar c = true) → Match (.plus k) s
  | seq {a b : RE} {s t : List Char} : Match a s → Match b t → Match (.seq a b) (s ++ t)
  | altL {a b : RE} {s : List Char} : Match a s → Match (.alt a b) s
  | altR {a b : RE} {s : List Char} : Match b s → Match (.alt a b) s

/-- Does the regex accept the empty string? -/
def nullable : RE → Bool
  | .nul => false
  | .eps => true
  | .one _ => false
  | .star _ => true
  | .plus _ => false
  | .seq a b => nullable a && nullable b
  | .alt a b => nullable a || nullable b

/-- Brzozowski derivative with respect to one character. -/
def deriv : RE → Char → RE
  | .nul, _ => .nul
  | .eps, _ => .nul
  | .one k, c => if k.matchesChar c then .eps else .nul
  | .star k, c => if k.matchesChar c then .star k else .nul
  | .plus k, c => if k.matchesChar c then .star k else .nul
  | .seq a b, c =>
    if nullable a then .alt (.seq (deriv a c) b) (deriv b c)
    else .seq (deriv a c) b
  | .alt a b, c => .alt (deriv a c) (deriv b c)

/-- Full-string matching by iterated derivatives (the source wraps the
translated pattern as `^…$`, so `is_match` is whole-string match). -/
def rmatch (r : RE) : List Char → Bool
  | [] => nullable r
  | c :: s => rmatch (deriv r c) s

/-- A right-nested chain of character literals ending in `eps`: the
parse of a purely literal regex string. -/
def litsRE : List Char → RE
  | [] => .eps
  | c :: cs => .seq (.one (.lit c)) (litsRE cs)

end RE

/-- Worker for `str::replace`: in state `skip = 0` look for the
pattern at the current position (on a hit, emit the replacement, count
the matched head as consumed and skip the remaining `pat.length - 1`
characters); in state `skip + 1` drop the current character of an
already-matched occurrence. -/
def replaceAllAux (pat rep : List Char) : Nat → List Char → List Char
  | _, [] => []
  | 0, c :: rest =>
    if 0 < pat.length ∧ pat.isPrefixOf (c :: rest) = true then
      rep ++ replaceAllAux pat rep (pat.length - 1) rest
    else
      c :: replaceAllAux pat rep 0 rest
  | skip + 1, _ :: rest => replaceAllAux pat rep skip rest

/-- `str::replace(pat, rep)`: leftmost non-overlapping replacement,
the output of a replacement is not rescanned.  (All patterns used by
the source are non-empty; with an empty pattern this model is the
identity.) -/
def replaceAll (pat rep : List Char) (s : List Char) : List Char :=
  replaceAllAux pat rep 0 s

/-- The three successive replacements of `is_ignored`:
`"." → "\\."`, then `"**/" → "(.*/)?"`, then `"*" → "[^/]*"`. -/
def globTranslate (pat : List Char) : List Char :=
  replaceAll ("*").toList ("[^/]*").toList
    (replaceAll ("**/").toList ("(.*/)?").toList
      (replaceAll (".").toList ("\\.").toList pat))

/-- `str::trim_matches('/')`: strip all leading and trailing `/`. -/
def trimMatchesSlash (s : List Char) : List Char :=
  ((s.dropWhile (· = '/')).reverse.dropWhile (· = '/')).reverse

/-- `str::trim()`: strip leading and trailing whitespace. -/
def trimChars (s : List Char) : List Char :=
  ((s.dropWhile Char.isWhitespace).reverse.dropWhile Char.isWhitespace).reverse

/-- `str::starts_with('#')`. -/
def startsWithHash (line : List Char) : Bool :=
  match line with
  | '#' :: _ => true
  | _ => false

/-- `str::contains(needle)`: substring search. -/
def containsSub (needle hay : List Char) : Bool :=
  needle.isPrefixOf hay ||
    match hay with
    | [] => false
    | _ :: rest => containsSub needle rest

/-- Consume an optional lazy marker `?` after a quantifier; under the
`^…$` full anchoring of `is_match`, a lazy quantifier accepts the same
language as the greedy one. -/
def stripLazy : List Char → List Char
  | '?' :: t => t
  | s => s

/-- Apply an optional quantifier following a parsed atom: `*` and `+`
are supported on single-character atoms (as in every string the glob
translation produces, where `*` only ever follows `[^/]`), `?` on any
atom (in particular the group of `(.[^/]*/)?`); other quantified forms
(e.g. a starred group) fail. -/
def applyQuant (a : RE) : List Char → Option (RE × List Char)
  | '*' :: rest =>
    match a with
    | .one k => some (.star k, stripLazy rest)
    | _ => none
  | '+' :: rest =>
    match a with
    | .one k => some (.plus k, stripLazy rest)
    | _ => none
  | '?' :: rest => some (.alt .eps a, stripLazy rest)
  | s => some (a, s)

mutual

/-- Parse a regex sequence (stops before `)` or at end of input).  The
fragment is the one described at the top of this section; a string
outside it fails, which skips the pattern like a failed
`Regex::new`. -/
def parseSeqFuel : Nat → List Char → Option (RE × List Char)
  | 0, _ => none
  | fuel + 1, s =>
    match s with
    | [] => some (.eps, [])
    | ')' :: rest => some (.eps, ')' :: rest)
    | s =>
      match parseAtomFuel fuel s with
      | none => none
      | some (a, s1) =>
        match applyQuant a s1 with
        | none => none
        | some (a2, s2) =>
          match parseSeqFuel fuel s2 with
          | none => none
          | some (b, s3) => some (RE.seq a2 b, s3)

/-- Parse one regex atom: `\.`, `[^/]`, `( … )`, `.`, or a literal
character (regex metacharacters are not literals). -/
def parseAtomFuel : Nat → List Char → Option (RE × List Char)
  | 0, _ => none
  | fuel + 1, s =>
    match s with
    | '\\' :: '.' :: rest => some (.one (.lit '.'), rest)
    | '[' :: '^' :: '/' :: ']' :: rest => some (.one .nslash, rest)
    | '(' :: rest =>
      match parseSeqFuel fuel rest with
      | none => none
      | some (r, s1) =>
        match s1 with
        | ')' :: s2 => some (r, s2)
        | _ => none
    | '.' :: rest => some (.one .anyc, rest)
    | c :: rest =>
      if c ∈ ['\\', '.', '*', '+', '?', '(', ')', '[', ']', '|', '^', '$']
      then none
      else some (.one (.lit c), rest)
    | [] => none

end

/-- `Regex::new("^…$")` then `is_match`: parse the translated pattern
(which must be consumed entirely) and match the whole path, since the
source anchors the pattern with `^` and `$`. -/
def parseRegexStr (s : List Char) : Option RE :=
  match parseSeqFuel (2 * s.length + 2) s with
  | some (r, []) => some r
  | _ => none

/-- `TesseractClient::is_ignored` (src/main.rs lines 160-182), taking
the path already relative to the workspace root (the source computes it
with `strip_prefix`, falling back to the full path).  A pattern is
trimmed of `/`; with a `*` it is glob-translated and regex-matched
against the whole relative path, otherwise it matches as a plain
substring. -/
def is_ignored (ignore_patterns : List (List Char)) (relative_path : List Char) : Bool :=
  ignore_patterns.any fun pat0 =>
    let pat := trimMatchesSlash pat0
    if pat.contains '*' then
      match parseRegexStr (globTranslate pat) with
      | some r => RE.rmatch r relative_path
      | none => false
    else
      containsSub pat relative_path

/-- `TesseractClient::read_gitignore` (src/main.rs lines 144-158): the
built-in defaults plus, when a `.gitignore` is readable, its non-blank
non-comment lines, trimmed.  `gitignore` is `none` when the file is
missing or unreadable. -/
def read_gitignore (gitignore : Option (List (List Char))) : List (List Char) :=
  [(".git").toList, ("target").toList, ("Cargo.lock").toList] ++
    match gitignore with
    | none => []
    | some lines =>
      (lines.filter fun line =>
        !(trimChars line).isEmpty && !startsWithHash line).map trimChars

/-- The file selection of `TesseractClient::create_tarball`
(src/main.rs lines 214-242): every entry walked under the workspace
root (an input here, the walk itself being filesystem I/O) is copied
into the staging directory — and hence into the archive — exactly when
`is_ignored` rejects no pattern for it.  Paths are relative to the
workspace root. -/
def tarballFiles (gitignore : Option (List (List Char)))
    (walked : List (List Char)) : List (List Char) :=
  walked.filter fun p => !is_ignored (read_gitignore gitignore) p

/-! ## Wire Codec

`bincode::serialize` / `bincode::deserialize` over the derived
`Serialize`/`Deserialize` of `BuildRequest`/`BuildResponse`
(src/main.rs lines 64-95), in bincode 1.x's default (legacy) format:
enum variants as a `u32` index in declaration order, collection and
string lengths as `u64`, both little-endian; `bool` as one byte;
`Option` as a one-byte tag; `String`/`PathBuf` as length-prefixed UTF-8
bytes; struct and tuple fields in order.  Frames add the `u32`
big-endian length prefix written in `build_unit` and read in
`handle_build_stream`.  Encoded streams are byte lists (`List Nat`,
values < 256 for valid messages). -/

namespace Wire

/-- Little-endian `u32`. -/
def encU32LE (n : Nat) : List Nat :=
  [n % 256, n / 256 % 256, n / 65536 % 256, n / 16777216 % 256]

/-- Big-endian `u32` (`u32::to_be_bytes`, used for the frame prefix). -/
def encU32BE (n : Nat) : List Nat :=
  [n / 16777216 % 256, n / 65536 % 256, n / 256 % 256, n % 256]

/-- Little-endian `u64`. -/
def encU64LE (n : Nat) : List Nat :=
  [n % 256, n / 256 % 256, n / 65536 % 256, n / 16777216 % 256,
   n / 4294967296 % 256, n / 1099511627776 % 256,
   n / 281474976710656 % 256, n / 72057594037927936 % 256]

def decU32LE : List Nat → Option (Nat × List Nat)
  | b0 :: b1 :: b2 :: b3 :: r =>
    some (b0 + 256 * b1 + 65536 * b2 + 16777216 * b3, r)
  | _ => none

def decU32BE : List Nat → Option (Nat × List Nat)
  | b0 :: b1 :: b2 :: b3 :: r =>
    some (16777216 * b0 + 65536 * b1 + 256 * b2 + b3, r)
  | _ => none

def decU64LE : List Nat → Option (Nat × List Nat)
  | b0 :: b1 :: b2 :: b3 :: b4 :: b5 :: b6 :: b7 :: r =>
    some (b0 + 256 * b1 + 65536 * b2 + 16777216 * b3 + 4294967296 * b4 +
      1099511627776 * b5 + 281474976710656 * b6 + 72057594037927936 * b7, r)
  | _ => none

/-- Length-prefixed byte string: `String`, `PathBuf` (serialized via
`to_str`) and `Vec<u8>` all encode this way. -/
def encBytes (bs : List Nat) : List Nat := encU64LE bs.length ++ bs

def decBytes (s : List Nat) : Option (List Nat × List Nat) :=
  match decU64LE s with
  | none => none
  | some (n, r) => if n ≤ r.length then some (r.take n, r.drop n) else none

/-- `bool`: one byte, `1` or `0`; decoding any other byte is
`InvalidBoolEncoding`. -/
def encBool (b : Bool) : List Nat := [if b then 1 else 0]

def decBool : List Nat → Option (Bool × List Nat)
  | 0 :: r => some (false, r)
  | 1 :: r => some (true, r)
  | _ => none

/-- `Option<T>`: one tag byte, `0` for `None`, `1` for `Some`. -/
def encOpt (f : α → List Nat) : Option α → List Nat
  | none => [0]
  | some a => 1 :: f a

def decOpt (dec : List Nat → Option (α × List Nat)) :
    List Nat → Option (Option α × List Nat)
  | 0 :: r => some (none, r)
  | 1 :: r =>
    match dec r with
    | none => none
    | some (a, r') => some (some a, r')
  | _ => none

/-- `Vec<T>`: `u64` length then the elements. -/
def encList (f : α → List Nat) (xs : List α) : List Nat :=
  encU64LE xs.length ++ (xs.map f).flatten

def decListAux (dec : List Nat → Option (α × List Nat)) :
    Nat → List Nat → Option (List α × List Nat)
  | 0, s => some ([], s)
  | n + 1, s =>
    match dec s with
    | none => none
    | some (a, s') =>
      match decListAux dec n s' with
      | none => none
      | some (as, s'') => some (a :: as, s'')

def decList (dec : List Nat → Option (α × List Nat)) (s : List Nat) :
    Option (List α × List Nat) :=
  match decU64LE s with
  | none => none
  | some (n, r) => decListAux dec n r

/-- `(PathBuf, Vec<u8>)` artifact entries: tuple fields in order. -/
def encPair (f g : List Nat → List Nat) (p : List Nat × List Nat) : List Nat :=
  f p.1 ++ g p.2

def decPair (df dg : List Nat → Option (List Nat × List Nat)) (s : List Nat) :
    Option ((List Nat × List Nat) × List Nat) :=
  match df s with
  | none => none
  | some (a, r) =>
    match dg r with
    | none => none
    | some (b, r') => some ((a, b), r')

/-- `BuildUnit` struct: four fields in declaration order. -/
def encBuildUnit (u : BuildUnit) : List Nat :=
  encBytes u.package_name ++ encList encBytes u.dependencies ++
    encList encBytes u.source_files ++ encList encBytes u.artifacts

def decBuildUnit (s : List Nat) : Option (BuildUnit × List Nat) :=
  match decBytes s with
  | none => none
  | some (name, r1) =>
    match decList decBytes r1 with
    | none => none
    | some (deps, r2) =>
      match decList decBytes r2 with
      | none => none
      | some (srcs, r3) =>
        match decList decBytes r3 with
        | none => none
        | some (arts, r4) => some (⟨name, deps, srcs, arts⟩, r4)

/-- `BuildRequest`: `u32` variant tag then the variant's fields. -/
def encBuildRequest : BuildRequest → List Nat
  | .BuildUnitReq u rel tgt data =>
    encU32LE 0 ++ encBuildUnit u ++ encBool rel ++ encOpt encBytes tgt ++
      encBytes data
  | .TransferArtifact fu ap => encU32LE 1 ++ encBytes fu ++ encBytes ap
  | .Heartbeat => encU32LE 2

def decBuildRequest (s : List Nat) : Option (BuildRequest × List Nat) :=
  match decU32LE s with
  | none => none
  | some (tag, r) =>
    if tag = 0 then
      match decBuildUnit r with
      | none => none
      | some (u, r1) =>
        match decBool r1 with
        | none => none
        | some (rel, r2) =>
          match decOpt decBytes r2 with
          | none => none
          | some (tgt, r3) =>
            match decBytes r3 with
            | none => none
            | some (data, r4) => some (.BuildUnitReq u rel tgt data, r4)
    else if tag = 1 then
      match decBytes r with
      | none => none
      | some (fu, r1) =>
        match decBytes r1 with
        | none => none
        | some (ap, r2) => some (.TransferArtifact fu ap, r2)
    else if tag = 2 then some (.Heartbeat, r)
    else none

/-- `BuildResponse`: `u32` variant tag then the variant's fields. -/
def encBuildResponse : BuildResponse → List Nat
  | .BuildOutput un out isErr =>
    encU32LE 0 ++ encBytes un ++ encBytes out ++ encBool isErr
  | .BuildComplete un arts =>
    encU32LE 1 ++ encBytes un ++ encList (encPair encBytes encBytes) arts
  | .BuildError un err => encU32LE 2 ++ encBytes un ++ encBytes err
  | .HeartbeatAck => encU32LE 3

def decBuildResponse (s : List Nat) : Option (BuildResponse × List Nat) :=
  match decU32LE s with
  | none => none
  | some (tag, r) =>
    if tag = 0 then
      match decBytes r with
      | none => none
      | some (un, r1) =>
        match decBytes r1 with
        | none => none
        | some (out, r2) =>
          match decBool r2 with
          | none => none
          | some (isErr, r3) => some (.BuildOutput un out isErr, r3)
    else if tag = 1 then
      match decBytes r with
      | none => none
      | some (un, r1) =>
        match decList (decPair decBytes decBytes) r1 with
        | none => none
        | some (arts, r2) => some (.BuildComplete un arts, r2)
    else if tag = 2 then
      match decBytes r with
      | none => none
      | some (un, r1) =>
        match decBytes r1 with
        | none => none
        | some (err, r2) => some (.BuildError un err, r2)
    else if tag = 3 then some (.HeartbeatAck, r)
    else none

/-- Framed write (src/main.rs lines 483-487): the payload's length as
`u32` big-endian, then the payload. -/
def encodeFramed (enc : α → List Nat) (m : α) : List Nat :=
  encU32BE (enc m).length ++ enc m

/-- Framed read (src/main.rs lines 330-345): read the 4-byte length,
read exactly that many payload bytes, deserialize the payload buffer. -/
def decodeFramed (dec : List Nat → Option (α × List Nat)) (s : List Nat) :
    Option (α × List Nat) :=
  match decU32BE s with
  | none => none
  | some (n, r) =>
    if n ≤ r.length then
      match dec (r.take n) with
      | none => none
      | some (m, _) => some (m, r.drop n)
    else none

/-- Validity of a wire byte string: a real `String`/`Vec` has fewer
than `2^64` elements and bytes below 256. -/
def ValidBytes (bs : List Nat) : Prop :=
  bs.length < 18446744073709551616 ∧ ∀ b ∈ bs, b < 256

instance : DecidablePred ValidBytes := fun bs =>
  inferInstanceAs (Decidable (_ ∧ _))

def ValidBytesList (xss : List (List Nat)) : Prop :=
  xss.length < 18446744073709551616 ∧ ∀ xs ∈ xss, ValidBytes xs

instance : DecidablePred ValidBytesList := fun xss =>
  inferInstanceAs (Decidable (_ ∧ _))

def ValidUnit (u : BuildUnit) : Prop :=
  ValidBytes u.package_name ∧ ValidBytesList u.dependencies ∧
    ValidBytesList u.source_files ∧ ValidBytesList u.artifacts

instance : DecidablePred ValidUnit := fun u =>
  inferInstanceAs (Decidable (_ ∧ _))

def ValidRequest : BuildRequest → Prop
  | .BuildUnitReq u _ tgt data =>
    ValidUnit u ∧ (∀ t ∈ tgt.toList, ValidBytes t) ∧ ValidBytes data
  | .TransferArtifact fu ap => ValidBytes fu ∧ ValidBytes ap
  | .Heartbeat => True

instance : DecidablePred ValidRequest := fun r => by
  cases r <;> simp only [ValidRequest] <;> infer_instance

def ValidArtifacts (arts : List (List Nat × List Nat)) : Prop :=
  arts.length < 18446744073709551616 ∧
    ∀ a ∈ arts, ValidBytes a.1 ∧ ValidBytes a.2

instance : DecidablePred ValidArtifacts := fun a =>
  inferInstanceAs (Decidable (_ ∧ _))

def ValidResponse : BuildResponse → Prop
  | .BuildOutput un out _ => ValidBytes un ∧ ValidBytes out
  | .BuildComplete un arts => ValidBytes un ∧ ValidArtifacts arts
  | .BuildError un err => ValidBytes un ∧ ValidBytes err
  | .HeartbeatAck => True

instance : DecidablePred ValidResponse := fun r => by
  cases r <;> simp only [ValidResponse] <;> infer_instance

end Wire

/-! ## Theorems -/

namespace RE

theorem seq_inv {a b : RE} {w : List Char} (h : Match (.seq a b) w) :
    ∃ u v, w = u ++ v ∧ Match a u ∧ Match b v := by
  cases h with
  | seq hs ht => exact ⟨_, _, rfl, hs, ht⟩

/-- Inversion for `eps`. -/
theorem eps_inv {w : List Char} (h : Match .eps w) : w = [] := by
  cases h
  rfl

/-- Inversion for a single-character class. -/
theorem one_inv {k : CClass} {w : List Char} (h : Match (.one k) w) :
    ∃ c, w = [c] ∧ k.matchesChar c = true := by
  cases h with
  | one hc => exact ⟨_, rfl, hc⟩

/-- Inversion for a starred class. -/
theorem star_inv {k : CClass} {w : List Char} (h : Match (.star k) w) :
    ∀ c ∈ w, k.matchesChar c = true := by
  cases h with
  | star hall => exact hall

/-- Inversion for `+`. -/
theorem plus_inv {k : CClass} {w : List Char} (h : Match (.plus k) w) :
    w ≠ [] ∧ ∀ c ∈ w, k.matchesChar c = true := by
  cases h with
  | plus hne hall => exact ⟨hne, hall⟩

theorem nullable_iff (r : RE) : nullable r = true ↔ Match r [] := by
  induction r with
  | nul => simp [nullable]; intro h; cases h
  | eps => simp [nullable]; exact .eps
  | one k => simp [nullable]; intro h; cases h
  | star k => simp [nullable]; exact .star (by simp)
  | plus k =>
    simp only [nullable, Bool.false_eq_true, false_iff]
    intro h
    exact absurd rfl (plus_inv h).1
  | seq a b iha ihb =>
    simp only [nullable, Bool.and_eq_true, iha, ihb]
    constructor
    · rintro ⟨ha, hb⟩
      have := Match.seq ha hb
      simpa using this
    · intro h
      obtain ⟨u, v, huv, hu, hv⟩ := seq_inv h
      obtain ⟨hu0, hv0⟩ := List.append_eq_nil.mp huv.symm
      exact ⟨hu0 ▸ hu, hv0 ▸ hv⟩
  | alt a b iha ihb =>
    simp only [nullable, Bool.or_eq_true, iha, ihb]
    constructor
    · rintro (h | h)
      · exact .altL h
      · exact .altR h
    · intro h
      cases h with
      | altL h => exact Or.inl h
      | altR h => exact Or.inr h

theorem deriv_iff (r : RE) (c : Char) (s : List Char) :
    Match (deriv r c) s ↔ Match r (c :: s) := by
  induction r generalizing s with
  | nul => constructor <;> (intro h; cases h)
  | eps => constructor <;> (intro h; cases h)
  | one k =>
    simp only [deriv]
    by_cases hm : k.matchesChar c = true
    · simp only [if_pos hm]
      constructor
      · intro h
        have hs := eps_inv h
        subst hs
        exact .one hm
      · intro h
        obtain ⟨d, hcs, _⟩ := one_inv h
        injection hcs with h1 h2
        subst h2
        exact .eps
    · simp only [if_neg hm]
      constructor
      · intro h; cases h
      · intro h
        obtain ⟨d, hcs, hd⟩ := one_inv h
        injection hcs with h1 h2
        exact absurd (h1 ▸ hd) hm
  | star k =>
    simp only [deriv]
    by_cases hm : k.matchesChar c = true
    · simp only [if_pos hm]
      constructor
      · intro h
        refine .star ?_
        intro d hd
        rcases List.mem_cons.mp hd with rfl | h1
        · exact hm
        · exact star_inv h d h1
      · intro h
        exact .star fun d hd => star_inv h d (List.mem_cons_of_mem _ hd)
    · simp only [if_neg hm]
      constructor
      · intro h; cases h
      · intro h
        exact absurd (star_inv h c (by simp)) hm
  | plus k =>
    simp only [deriv]
    by_cases hm : k.matchesChar c = true
    · simp only [if_pos hm]
      constructor
      · intro h
        refine .plus (by simp) ?_
        intro d hd
        rcases List.mem_cons.mp hd with rfl | h1
        · exact hm
        · exact star_inv h d h1
      · intro h
        exact .star fun d hd => (plus_inv h).2 d (List.mem_cons_of_mem _ hd)
    · simp only [if_neg hm]
      constructor
      · intro h; cases h
      · intro h
        exact absurd ((plus_inv h).2 c (by simp)) hm
  | seq a b iha ihb =>
    simp only [deriv]
    by_cases hn : nullable a
    · simp only [if_pos hn]
      constructor
      · intro h
        cases h with
        | altL h =>
          cases h with
          | seq hs ht =>
            rename_i u v
            have := Match.seq ((iha u).mp hs) ht
            simpa using this
        | altR h =>
          have ha0 : Match a [] := (nullable_iff a).mp hn
          have := Match.seq ha0 ((ihb s).mp h)
          simpa using this
      · intro h
        obtain ⟨u, v, huv, hu, hv⟩ := seq_inv h
        cases u with
        | nil =>
          simp only [List.nil_append] at huv
          subst huv
          exact .altR ((ihb s).mpr hv)
        | cons x u' =>
          rw [List.cons_append] at huv
          injection huv with h1 h2
          subst h1
          subst h2
          exact .altL (Match.seq ((iha u').mpr hu) hv)
    · simp only [if_neg hn]
      constructor
      · intro h
        cases h with
        | seq hs ht =>
          rename_i u v
          have := Match.seq ((iha u).mp hs) ht
          simpa using this
      · intro h
        obtain ⟨u, v, huv, hu, hv⟩ := seq_inv h
        cases u with
        | nil =>
          exact absurd ((nullable_iff a).mpr hu) (by simpa using hn)
        | cons x u' =>
          rw [List.cons_append] at huv
          injection huv with h1 h2
          subst h1
          subst h2
          exact Match.seq ((iha u').mpr hu) hv
  | alt a b iha ihb =>
    simp only [deriv]
    constructor
    · intro h
      cases h with
      | altL h => exact .altL ((iha s).mp h)
      | altR h => exact .altR ((ihb s).mp h)
    · intro h
      cases h with
      | altL h => exact .altL ((iha s).mpr h)
      | altR h => exact .altR ((ihb s).mpr h)

theorem rmatch_iff (r : RE) (s : List Char) : rmatch r s = true ↔ Match r s := by
  induction s generalizing r with
  | nil => exact nullable_iff r
  | cons c s ih => simpa [rmatch] using (ih (deriv r c)).trans (deriv_iff r c s)

/-- A literal chain matches exactly the literal string. -/
theorem match_litsRE (cs : List Char) (v : List Char) :
    Match (litsRE cs) v ↔ v = cs := by
  induction cs generalizing v with
  | nil =>
    constructor
    · exact eps_inv
    · rintro rfl
      exact .eps
  | cons c cs ih =>
    constructor
    · intro h
      obtain ⟨u, w, huw, hu, hw⟩ := seq_inv h
      obtain ⟨x, hx, hmx⟩ := one_inv hu
      have hxc : x = c := by simpa [CClass.matchesChar] using hmx
      rw [huw, hx, hxc, (ih w).mp hw]
      rfl
    · rintro rfl
      have hm : (CClass.lit c).matchesChar c = true := by
        simp [CClass.matchesChar]
      have := Match.seq (Match.one hm) ((ih cs).mpr rfl)
      simpa using this

end RE

/-- C7: for every artifact returned in a `BuildComplete` response, the
local destination path equals
`<workspace root>/target/<target-triple>/<profile>/<relative path>`
when a target triple is configured and
`<workspace root>/target/<profile>/<relative path>` otherwise, where
the profile directory is `release` when the release flag is set and
`debug` otherwise. -/
theorem C7_artifact_path (ws : List String) (target : Option String) (release : Bool)
    (rel : List String) :
    artifact_target_path ws target release rel = specTargetPath ws target release rel := by
  cases target <;>
    simp [artifact_target_path, specTargetPath, pjoin, pjoinPath, Option.toList,
      List.append_assoc]

/-- C9 counterexample: the claim that no received variant is ever
silently no-opped is false at a concrete input: a `HeartbeatAck` frame
received while streaming hits the source's `_ => {}` arm and is dropped
without producing a log line, terminating the session or being
rejected. -/
theorem C9_counterexample : handleFrame .HeartbeatAck = .noop := rfl

/-- C9 amended: every response frame received while streaming either
produces a surfaced log line (`BuildOutput`), terminates the session
(`BuildComplete`/`BuildError`), or — in exactly the one remaining case,
`HeartbeatAck` — is silently dropped by the wildcard arm and the loop
continues. -/
theorem C9_frame_handling (r : BuildResponse) :
    handleFrame r = .noop ↔ r = .HeartbeatAck := by
  cases r <;> simp [handleFrame]

/-- C3 counterexample: the claim that each build session sends a
`Heartbeat` and awaits a `HeartbeatAck` before the `BuildUnit` request
is false at a concrete input: the session's wire trace contains no
`Heartbeat` at all, and its first sent message is already the
`BuildUnit` request. -/
theorem C3_counterexample :
    (build_unit_sent (asciiBytes "127.0.0.1:8080") ⟨asciiBytes "pkg", [], [], []⟩
        false none []).head? =
      some (.BuildUnitReq ⟨asciiBytes "pkg", [], [], []⟩ false none []) ∧
    BuildRequest.Heartbeat ∉
      build_unit_sent (asciiBytes "127.0.0.1:8080") ⟨asciiBytes "pkg", [], [], []⟩
        false none [] := by
  constructor
  · rfl
  · decide

/-- C3 amended: in every build session the client sends exactly one
message — the `BuildUnit` request — immediately after connecting; no
`Heartbeat` is ever sent and no `HeartbeatAck` is awaited. -/
theorem C3_no_handshake (addr : List Nat) (u : BuildUnit) (rel : Bool)
    (tgt : Option (List Nat)) (tar : List Nat) :
    build_unit_sent addr u rel tgt tar = [.BuildUnitReq u rel tgt tar] ∧
      BuildRequest.Heartbeat ∉ build_unit_sent addr u rel tgt tar := by
  refine ⟨rfl, ?_⟩
  simp [build_unit_sent, build_unit_actions]

/-- C10: with a configured retry count of 0 the attempt loop
`for attempt in 1..=0` never runs, `last_error` stays `None` for every
unit, and `build()` returns success for the whole run without a single
session being attempted. -/
theorem C10_zero_retries (sessionOk : List Nat → Nat → Bool) (units : List BuildUnit) :
    buildAll sessionOk 0 units = ([], .ok) := by
  induction units with
  | nil => rfl
  | cons u rest ih =>
    simp [buildAll, buildUnitLoop, List.range', attemptSeq, ih]

/-- C2 counterexample: the claim that units are always built in
dependency order is false at a concrete input: for the discovered unit
list `[b, a]` where `b` names `a` as a dependency (discovery emits
packages in whatever order the metadata reader yields them — the client
performs no sorting), the very first session attempted is `b`'s, before
its dependency `a` has been built at all. -/
theorem C2_counterexample :
    (buildAll (fun _ _ => true) 1
        [⟨asciiBytes "b", [asciiBytes "a"], [], []⟩,
         ⟨asciiBytes "a", [], [], []⟩]).1 =
      [.attempt (asciiBytes "b") 1, .attempt (asciiBytes "a") 1] ∧
    asciiBytes "a" ∈
      (⟨asciiBytes "b", [asciiBytes "a"], [], []⟩ : BuildUnit).dependencies := by
  constructor
  · decide
  · decide

/-- C2 amended: units are processed strictly sequentially in the
discovered order — the run's event trace is the concatenation of the
per-unit loop traces of the longest all-succeeding prefix, followed by
the trace of the first failing unit (if any), at which the run aborts
naming that unit; so a later unit's session is never started while an
earlier unit has not yet succeeded.  No dependency-based reordering is
performed, so dependency order is respected only when the discovered
order already is. -/
theorem C2_sequencing (sessionOk : List Nat → Nat → Bool) (retries : Nat)
    (units : List BuildUnit) :
    (buildAll sessionOk retries units).1 =
      ((units.takeWhile (unitSucceeds sessionOk retries)).map
          (unitTrace sessionOk retries)).flatten ++
        ((units.dropWhile (unitSucceeds sessionOk retries)).head?.elim []
          (unitTrace sessionOk retries)) ∧
    (buildAll sessionOk retries units).2 =
      ((units.dropWhile (unitSucceeds sessionOk retries)).head?.elim .ok
        fun f => .err f.package_name retries) := by
  induction units with
  | nil => exact ⟨rfl, rfl⟩
  | cons u rest ih =>
    by_cases h : unitSucceeds sessionOk retries u
    · have hbuild : buildAll sessionOk retries (u :: rest) =
          (unitTrace sessionOk retries u ++ (buildAll sessionOk retries rest).1,
            (buildAll sessionOk retries rest).2) := by
        simp only [buildAll, unitTrace]
        rw [if_pos (by exact h)]
      rw [hbuild, List.takeWhile_cons, List.dropWhile_cons, if_pos h, if_pos h]
      exact ⟨by simp [ih.1, List.append_assoc], ih.2⟩
    · have hbuild : buildAll sessionOk retries (u :: rest) =
          (unitTrace sessionOk retries u, .err u.package_name retries) := by
        simp only [buildAll, unitTrace]
        rw [if_neg (by simpa using h)]
      rw [hbuild, List.takeWhile_cons, List.dropWhile_cons, if_neg h, if_neg h]
      simp

/-- The attempt loop over the range `attempt, …, attempt+count-1` when
every session fails and the range's last element is exactly `retries`:
it produces the spec's trace — one attempt per allowed try, a 2-second
sleep between consecutive tries — and exits with `last_error` set. -/
theorem attemptSeq_cons_fail (ok : Nat → Bool) (pkg : List Nat) (retries : Nat)
    (attempt : Nat) (more : List Nat) (lf : Bool) (h : ok attempt = false) :
    attemptSeq ok pkg retries (attempt :: more) lf =
      (.attempt pkg attempt ::
          ((if attempt < retries then [.sleep 2] else []) ++
            (attemptSeq ok pkg retries more true).1),
        (attemptSeq ok pkg retries more true).2) := by
  rw [attemptSeq, h]
  simp

theorem attemptSeq_allFail (ok : Nat → Bool) (pkg : List Nat) (retries : Nat)
    (hfail : ∀ n, ok n = false) :
    ∀ count attempt lf, 0 < count → attempt + count = retries + 1 →
      attemptSeq ok pkg retries (List.range' attempt count) lf =
        (failTrace pkg attempt count, false) := by
  intro count
  induction count with
  | zero => omega
  | succ k ih =>
    intro attempt lf _ hsum
    rw [List.range'_succ, attemptSeq_cons_fail ok pkg retries attempt _ lf (hfail attempt)]
    cases k with
    | zero =>
      have hlast : ¬ attempt < retries := by omega
      simp [attemptSeq, hlast, failTrace, List.range']
    | succ m =>
      have hlt : attempt < retries := by omega
      rw [ih (attempt + 1) true (by omega) (by omega), if_pos hlt]
      simp [failTrace]

/-- C5: a build unit whose session always fails is attempted exactly
the configured retry count — no more, no fewer — with a fixed
two-second sleep between consecutive attempts and none after the last,
and after the last attempt fails the whole run aborts with an error
naming the package and the number of attempts made (the configured
count). -/
theorem C5_retry_bound (sessionOk : List Nat → Nat → Bool) (retries : Nat)
    (u : BuildUnit) (rest : List BuildUnit)
    (hfail : ∀ n, sessionOk u.package_name n = false) (hr : 1 ≤ retries) :
    buildAll sessionOk retries (u :: rest) =
      (failTrace u.package_name 1 retries, .err u.package_name retries) := by
  have hloop : buildUnitLoop (sessionOk u.package_name) u.package_name retries =
      (failTrace u.package_name 1 retries, false) := by
    unfold buildUnitLoop
    exact attemptSeq_allFail _ _ _ hfail retries 1 false (by omega) (by omega)
  simp only [buildAll, hloop]
  rfl

/-- C5 witness: three configured retries against an always-failing
session yield exactly the three-attempt trace with two sleeps and the
abort naming the package and the attempt count. -/
theorem C5_witness :
    buildAll (fun _ _ => false) 3 [⟨asciiBytes "pkg", [], [], []⟩] =
      (failTrace (asciiBytes "pkg") 1 3, .err (asciiBytes "pkg") 3) :=
  C5_retry_bound (fun _ _ => false) 3 ⟨asciiBytes "pkg", [], [], []⟩ []
    (fun _ => rfl) (by omega)

theorem takeWhile_append_of_all {α} (p : α → Bool) (l1 l2 : List α)
    (h : ∀ a ∈ l1, p a = true) :
    (l1 ++ l2).takeWhile p = l1 ++ l2.takeWhile p := by
  induction l1 with
  | nil => simp
  | cons a l ih => simp_all [List.takeWhile_cons]

theorem dropWhile_append_of_all {α} (p : α → Bool) (l1 l2 : List α)
    (h : ∀ a ∈ l1, p a = true) :
    (l1 ++ l2).dropWhile p = l2.dropWhile p := by
  induction l1 with
  | nil => simp
  | cons a l ih => simp_all [List.dropWhile_cons]

theorem dropWhile_idem {α} (p : α → Bool) (l : List α) :
    (l.dropWhile p).dropWhile p = l.dropWhile p := by
  induction l with
  | nil => rfl
  | cons a l ih =>
    rw [List.dropWhile_cons]
    by_cases h : p a
    · simpa [h] using ih
    · simp [List.dropWhile_cons, h]

theorem dirPart_append_fileName (p : List Char) : dirPart p ++ fileNamePart p = p := by
  unfold dirPart fileNamePart
  rw [← List.reverse_append, List.takeWhile_append_dropWhile, List.reverse_reverse]

/-- Characters of the file name are never separators. -/
theorem fileNamePart_no_slash (p : List Char) : ∀ c ∈ fileNamePart p, c ≠ '/' := by
  intro c hc
  unfold fileNamePart at hc
  rw [List.mem_reverse] at hc
  have := List.mem_takeWhile_imp hc
  simpa using this

/-- The stem is made of characters of the file name. -/
theorem mem_stemOf (f : List Char) : ∀ c ∈ stemOf f, c ∈ f := by
  intro c hc
  unfold stemOf at hc
  split at hc
  · exact hc
  · rename_i a b heq
    split at hc
    · exact hc
    · rw [List.mem_reverse] at hc
      have hmem : c ∈ f.reverse.dropWhile (· ≠ '.') := by
        rw [heq]
        exact List.mem_cons_of_mem a hc
      have := (List.dropWhile_sublist (· ≠ '.')).subset hmem
      rwa [List.mem_reverse] at this

theorem stemOf_append_dot (x y : List Char) (hy : ∀ c ∈ y, c ≠ '.') (hx : x ≠ []) :
    stemOf (x ++ '.' :: y) = x := by
  have hrev : (x ++ '.' :: y).reverse = y.reverse ++ '.' :: x.reverse := by
    simp
  unfold stemOf
  rw [hrev, dropWhile_append_of_all _ _ _ (by
    intro a ha
    rw [List.mem_reverse] at ha
    simpa using hy a ha)]
  simp [List.dropWhile_cons, List.isEmpty_iff, hx]

/-- The temporary sibling path is never the destination path itself:
its file name carries the extra `.{pid}.tmp` suffix. -/
theorem tmpPathOf_ne (path : List Char) (pid : List Char) :
    tmpPathOf path pid ≠ path := by
  intro h
  unfold tmpPathOf with_extension at h
  have h2 : dirPart path ++ (stemOf (fileNamePart path) ++
      '.' :: (pid ++ ['.', 't', 'm', 'p'])) = dirPart path ++ fileNamePart path := by
    simpa [List.append_assoc] using h.trans (dirPart_append_fileName path).symm
  have hf := List.append_cancel_left h2
  have hYX : stemOf (fileNamePart path) ++ '.' :: (pid ++ ['.', 't', 'm', 'p']) =
      (stemOf (fileNamePart path) ++ '.' :: pid) ++ '.' :: ['t', 'm', 'p'] := by
    simp
  have hf2 : fileNamePart path =
      (stemOf (fileNamePart path) ++ '.' :: pid) ++ '.' :: ['t', 'm', 'p'] :=
    hf.symm.trans hYX
  have hstem := stemOf_append_dot (stemOf (fileNamePart path) ++ '.' :: pid)
    ['t', 'm', 'p'] (by decide) (by simp)
  rw [← hf2] at hstem
  have hlen := congrArg List.length hstem
  simp [List.length_append] at hlen

/-- Appending separator-free characters to a path's directory part
leaves the directory part unchanged. -/
theorem dirPart_append_no_slash (d m : List Char) (hm : ∀ c ∈ m, c ≠ '/') :
    dirPart (dirPart d ++ m) = dirPart d := by
  unfold dirPart
  rw [List.reverse_append, dropWhile_append_of_all _ _ _ (by
    intro a ha
    rw [List.mem_reverse] at ha
    simpa using hm a ha)]
  rw [List.reverse_reverse, dropWhile_idem]

/-- C8: artifact materialization is idempotent and tidy.  The bytes are
first written to a temporary file in the same directory
(`path.with_extension("{pid}.tmp")`) and then renamed into place, so
after a successful materialization the destination holds exactly the
artifact bytes, no temporary file remains, and repeating the write with
identical bytes leaves the whole filesystem — in particular the final
file — unchanged.  (`pid` is the decimal process id, which contains no
path separator.) -/
theorem C8_idempotent_materialization (fs : FS) (path : List Char) (data : List Nat)
    (pid : List Char) (q : List Char) (hpid : ∀ c ∈ pid, c ≠ '/') :
    write_artifact_safely fs path data pid path = some data ∧
    write_artifact_safely fs path data pid (tmpPathOf path pid) = none ∧
    write_artifact_safely (write_artifact_safely fs path data pid) path data pid q =
      write_artifact_safely fs path data pid q ∧
    dirPart (tmpPathOf path pid) = dirPart path := by
  have hne := tmpPathOf_ne path pid
  refine ⟨?_, ?_, ?_, ?_⟩
  · simp [write_artifact_safely, fsRename, fsWrite]
  · simp [write_artifact_safely, fsRename, fsWrite, hne]
  · by_cases hq1 : q = path
    · subst hq1
      simp [write_artifact_safely, fsRename, fsWrite]
    · by_cases hq2 : q = tmpPathOf path pid
      · subst hq2
        simp [write_artifact_safely, fsRename, fsWrite, hne]
      · simp [write_artifact_safely, fsRename, fsWrite, hq1, hq2]
  · have hM : ∀ c ∈ (stemOf (fileNamePart path) ++
        '.' :: (pid ++ ['.', 't', 'm', 'p'])), c ≠ '/' := by
      intro c hc
      simp only [List.mem_append, List.mem_cons] at hc
      rcases hc with hc | hc | hc
      · exact fileNamePart_no_slash path c (mem_stemOf _ c hc)
      · subst hc
        decide
      · rcases hc with hc | hc
        · exact hpid c hc
        · rcases hc with hc | hc | hc | hc <;> simp_all
    unfold tmpPathOf with_extension
    rw [List.append_assoc]
    exact dirPart_append_no_slash path _ hM

/-- C8 witness: materializing a concrete artifact on an empty
filesystem, twice. -/
theorem C8_witness :
    write_artifact_safely (fun _ => none) ("out/lib.rlib").toList [7, 7] ("42").toList
        ("out/lib.rlib").toList = some [7, 7] ∧
    write_artifact_safely (fun _ => none) ("out/lib.rlib").toList [7, 7] ("42").toList
        (tmpPathOf ("out/lib.rlib").toList ("42").toList) = none ∧
    write_artifact_safely
        (write_artifact_safely (fun _ => none) ("out/lib.rlib").toList [7, 7]
          ("42").toList)
        ("out/lib.rlib").toList [7, 7] ("42").toList ("out/lib.rlib").toList =
      write_artifact_safely (fun _ => none) ("out/lib.rlib").toList [7, 7] ("42").toList
        ("out/lib.rlib").toList ∧
    dirPart (tmpPathOf ("out/lib.rlib").toList ("42").toList) =
      dirPart ("out/lib.rlib").toList :=
  C8_idempotent_materialization (fun _ => none) ("out/lib.rlib").toList [7, 7]
    ("42").toList ("out/lib.rlib").toList (by decide)

/-- C6 counterexample: the claim that the archive always contains the
manifest and the lock file is false at a concrete input: with no
workspace `.gitignore` at all, the walked set
`[Cargo.toml, Cargo.lock, src/main.rs]` is archived without
`Cargo.lock`, because `Cargo.lock` is one of the built-in default
ignore patterns. -/
theorem C6_counterexample :
    tarballFiles none
        [("Cargo.toml").toList, ("Cargo.lock").toList, ("src/main.rs").toList] =
      [("Cargo.toml").toList, ("src/main.rs").toList] ∧
    ("Cargo.lock").toList ∉
      tarballFiles none
        [("Cargo.toml").toList, ("Cargo.lock").toList, ("src/main.rs").toList] := by
  constructor
  · decide
  · decide

/-- C6 amended: the archive contains exactly the walked files not
matched by the ignore patterns; there is no force-include mechanism.
In particular the lock file is always excluded — `Cargo.lock` is a
built-in default pattern matched as a substring, whatever the
workspace `.gitignore` says — and the manifest is included only as long
as no pattern matches it (it survives the built-in defaults). -/
theorem C6_lockfile_excluded (gitignore : Option (List (List Char)))
    (walked : List (List Char)) (p : List Char)
    (hp : containsSub ("Cargo.lock").toList p = true)
    (toml : ("Cargo.toml").toList ∈ walked) :
    p ∉ tarballFiles gitignore walked ∧
      ("Cargo.toml").toList ∈ tarballFiles none walked := by
  constructor
  · intro hmem
    have hig : is_ignored (read_gitignore gitignore) p = true := by
      apply List.any_eq_true.mpr
      refine ⟨("Cargo.lock").toList, ?_, ?_⟩
      · simp [read_gitignore]
      · simpa using hp
    have := (List.mem_filter.mp hmem).2
    rw [hig] at this
    simp at this
  · apply List.mem_filter.mpr
    refine ⟨toml, ?_⟩
    decide

/-- `str::contains` decides the substring (infix) relation. -/
theorem containsSub_iff (needle hay : List Char) :
    containsSub needle hay = true ↔ needle <:+: hay := by
  induction hay with
  | nil =>
    rw [containsSub]
    simp [List.isPrefixOf_iff_prefix, List.prefix_nil, List.infix_nil]
  | cons c rest ih =>
    rw [containsSub]
    simp only [Bool.or_eq_true, List.isPrefixOf_iff_prefix, ih, List.infix_cons_iff]

/-- C4 counterexample: the claimed segment-anchored semantics is false
at concrete inputs, in both directions.  The path `logs/app.log` ends
in `.log` (so the claim says `*.log` must exclude it) yet is not
excluded, because the translated regex `^[^/]*\\.log$` cannot cross the
`/`; and `retargeting.rs` is excluded by the pattern `target` even
though `target` only occurs inside an unrelated segment, because
wildcard-free patterns match as plain substrings. -/
theorem C4_counterexample :
    is_ignored [("*.log").toList] ("logs/app.log").toList = false ∧
    (".log").toList <:+ ("logs/app.log").toList ∧
    is_ignored [("target").toList] ("retargeting.rs").toList = true := by
  refine ⟨?_, ?_, ?_⟩
  · decide
  · decide
  · decide

/-- C4 amended — only as far as the counterexample forces, with no
blanket rule for wildcard patterns (whose translations differ case by
case): `is_ignored` is true iff some pattern matches, where

* the specific pattern `*.log` (translated to `^[^/]*\\.log$`) excludes
  exactly the separator-free paths ending in `.log`, so a path in a
  subdirectory ending in `.log` is not excluded;
* `**/` translates to `(.[^/]*/)?` — its inner `*` is rewritten too —
  so `**/foo` matches `foo` itself or exactly one leading segment (of
  length ≥ 1, first character not a newline) followed by `/foo`, never
  a deeper path;
* a wildcard-free pattern matches as a plain substring anywhere in the
  relative path, not anchored at segment boundaries. -/
theorem C4_pattern_matching :
    (∀ p : List Char,
        is_ignored [("*.log").toList] p = true ↔
          ∃ u, p = u ++ (".log").toList ∧ ∀ c ∈ u, c ≠ '/') ∧
    (∀ p : List Char,
        is_ignored [("**/foo").toList] p = true ↔
          (p = ("foo").toList ∨
            ∃ c u, c ≠ '\n' ∧ (∀ x ∈ u, x ≠ '/') ∧
              p = c :: (u ++ '/' :: ("foo").toList))) ∧
    (∀ pat p : List Char, (trimMatchesSlash pat).contains '*' = false →
        (is_ignored [pat] p = true ↔ (trimMatchesSlash pat) <:+: p)) := by
  refine ⟨?_, ?_, ?_⟩
  · intro p
    have hred : is_ignored [("*.log").toList] p =
        (RE.rmatch (RE.seq (RE.star .nslash) (RE.litsRE (".log").toList)) p
          || false) := rfl
    rw [hred, Bool.or_false, RE.rmatch_iff]
    constructor
    · intro h
      obtain ⟨u, v, huv, hu, hv⟩ := RE.seq_inv h
      refine ⟨u, by rw [huv, (RE.match_litsRE _ _).mp hv], ?_⟩
      intro x hx
      have := RE.star_inv hu x hx
      simpa [CClass.matchesChar] using this
    · rintro ⟨u, rfl, hall⟩
      refine RE.Match.seq (RE.Match.star ?_) ((RE.match_litsRE _ _).mpr rfl)
      intro x hx
      simpa [CClass.matchesChar] using hall x hx
  · intro p
    have hred : is_ignored [("**/foo").toList] p =
        (RE.rmatch (RE.seq (RE.alt RE.eps (RE.seq (RE.one .anyc)
          (RE.seq (RE.star .nslash) (RE.seq (RE.one (.lit '/')) RE.eps))))
          (RE.litsRE ("foo").toList)) p || false) := rfl
    rw [hred, Bool.or_false, RE.rmatch_iff]
    constructor
    · intro h
      obtain ⟨u, v, huv, hu, hv⟩ := RE.seq_inv h
      rw [(RE.match_litsRE _ _).mp hv] at huv
      cases hu with
      | altL h0 =>
        left
        rw [huv, RE.eps_inv h0]
        rfl
      | altR hg =>
        right
        obtain ⟨s1, t1, hu1, h1, hrest⟩ := RE.seq_inv hg
        obtain ⟨c, hs1, hc⟩ := RE.one_inv h1
        obtain ⟨s2, t2, ht1, h2, hrest2⟩ := RE.seq_inv hrest
        obtain ⟨s3, t3, ht2, h3, h4⟩ := RE.seq_inv hrest2
        obtain ⟨d, hs3, hd⟩ := RE.one_inv h3
        have ht3 : t3 = [] := RE.eps_inv h4
        have hd2 : d = '/' := by simpa [CClass.matchesChar] using hd
        refine ⟨c, s2, by simpa [CClass.matchesChar] using hc,
          fun x hx => by simpa [CClass.matchesChar] using RE.star_inv h2 x hx, ?_⟩
        rw [huv, hu1, hs1, ht1, ht2, hs3, ht3, hd2]
        simp
    · rintro (rfl | ⟨c, u, hc, hu, rfl⟩)
      · have h1 : RE.Match (RE.alt RE.eps (RE.seq (RE.one .anyc)
            (RE.seq (RE.star .nslash) (RE.seq (RE.one (.lit '/')) RE.eps)))) [] :=
          RE.Match.altL RE.Match.eps
        have h2 : RE.Match (RE.litsRE ("foo").toList) (("foo").toList) :=
          (RE.match_litsRE _ _).mpr rfl
        have := RE.Match.seq h1 h2
        simpa using this
      · have hG : RE.Match (RE.seq (RE.one .anyc) (RE.seq (RE.star .nslash)
            (RE.seq (RE.one (.lit '/')) RE.eps))) ([c] ++ (u ++ (['/'] ++ []))) := by
          refine RE.Match.seq (RE.Match.one ?_) (RE.Match.seq (RE.Match.star ?_)
            (RE.Match.seq (RE.Match.one ?_) RE.Match.eps))
          · simpa [CClass.matchesChar] using hc
          · intro x hx
            simpa [CClass.matchesChar] using hu x hx
          · simp [CClass.matchesChar]
        have h2 : RE.Match (RE.litsRE ("foo").toList) (("foo").toList) :=
          (RE.match_litsRE _ _).mpr rfl
        have h3 : RE.Match (RE.alt RE.eps (RE.seq (RE.one .anyc)
            (RE.seq (RE.star .nslash) (RE.seq (RE.one (.lit '/')) RE.eps))))
            ([c] ++ (u ++ (['/'] ++ []))) :=
          RE.Match.altR hG
        have := RE.Match.seq h3 h2
        simpa using this
  · intro pat p h
    simp only [is_ignored, List.any_cons, List.any_nil, Bool.or_false, h,
      Bool.false_eq_true, if_false]
    exact containsSub_iff _ p

/-- C4 witness: `app.log` is excluded by `*.log`, `x/foo` by `**/foo`,
and `src/main.rs` by the wildcard-free pattern `src`. -/
theorem C4_witness :
    is_ignored [("*.log").toList] ("app.log").toList = true ∧
    is_ignored [("**/foo").toList] ("x/foo").toList = true ∧
    is_ignored [("src").toList] ("src/main.rs").toList = true := by
  refine ⟨?_, ?_, ?_⟩
  · exact (C4_pattern_matching.1 (("app.log").toList)).mpr
      ⟨("app").toList, by decide, by decide⟩
  · exact (C4_pattern_matching.2.1 (("x/foo").toList)).mpr
      (Or.inr ⟨'x', [], by decide, by decide, by decide⟩)
  · exact (C4_pattern_matching.2.2 ("src").toList ("src/main.rs").toList
      (by decide)).mpr (by decide)

/-- C6 witness: a concrete walked set containing the manifest and the
lock file keeps the manifest and drops the lock file. -/
theorem C6_witness :
    ("Cargo.lock").toList ∉
        tarballFiles none [("Cargo.toml").toList, ("Cargo.lock").toList] ∧
      ("Cargo.toml").toList ∈
        tarballFiles none [("Cargo.toml").toList, ("Cargo.lock").toList] :=
  C6_lockfile_excluded none [("Cargo.toml").toList, ("Cargo.lock").toList]
    ("Cargo.lock").toList (by decide) (by decide)

namespace Wire

theorem decU32LE_enc (n : Nat) (h : n < 4294967296) (r : List Nat) :
    decU32LE (encU32LE n ++ r) = some (n, r) := by
  show some (n % 256 + 256 * (n / 256 % 256) + 65536 * (n / 65536 % 256) +
    16777216 * (n / 16777216 % 256), r) = some (n, r)
  have : n % 256 + 256 * (n / 256 % 256) + 65536 * (n / 65536 % 256) +
      16777216 * (n / 16777216 % 256) = n := by omega
  rw [this]

theorem decU32BE_enc (n : Nat) (h : n < 4294967296) (r : List Nat) :
    decU32BE (encU32BE n ++ r) = some (n, r) := by
  show some (16777216 * (n / 16777216 % 256) + 65536 * (n / 65536 % 256) +
    256 * (n / 256 % 256) + n % 256, r) = some (n, r)
  have : 16777216 * (n / 16777216 % 256) + 65536 * (n / 65536 % 256) +
      256 * (n / 256 % 256) + n % 256 = n := by omega
  rw [this]

theorem decU64LE_enc (n : Nat) (h : n < 18446744073709551616) (r : List Nat) :
    decU64LE (encU64LE n ++ r) = some (n, r) := by
  show some (n % 256 + 256 * (n / 256 % 256) + 65536 * (n / 65536 % 256) +
    16777216 * (n / 16777216 % 256) + 4294967296 * (n / 4294967296 % 256) +
    1099511627776 * (n / 1099511627776 % 256) +
    281474976710656 * (n / 281474976710656 % 256) +
    72057594037927936 * (n / 72057594037927936 % 256), r) = some (n, r)
  have : n % 256 + 256 * (n / 256 % 256) + 65536 * (n / 65536 % 256) +
      16777216 * (n / 16777216 % 256) + 4294967296 * (n / 4294967296 % 256) +
      1099511627776 * (n / 1099511627776 % 256) +
      281474976710656 * (n / 281474976710656 % 256) +
      72057594037927936 * (n / 72057594037927936 % 256) = n := by omega
  rw [this]

theorem decBytes_enc (bs : List Nat) (h : bs.length < 18446744073709551616)
    (r : List Nat) : decBytes (encBytes bs ++ r) = some (bs, r) := by
  unfold encBytes decBytes
  rw [List.append_assoc, decU64LE_enc _ h]
  simp [List.take_left, List.drop_left]

theorem decBool_enc (b : Bool) (r : List Nat) : decBool (encBool b ++ r) = some (b, r) := by
  cases b <;> rfl

theorem decOpt_enc {α} (f : α → List Nat) (dec : List Nat → Option (α × List Nat))
    (o : Option α) (r : List Nat)
    (h : ∀ a, o = some a → ∀ r', dec (f a ++ r') = some (a, r')) :
    decOpt dec (encOpt f o ++ r) = some (o, r) := by
  cases o with
  | none => rfl
  | some a =>
    show decOpt dec (1 :: (f a ++ r)) = some (some a, r)
    unfold decOpt
    dsimp only
    rw [h a rfl r]

theorem decListAux_enc {α} (dec : List Nat → Option (α × List Nat)) (f : α → List Nat)
    (xs : List α) (h : ∀ a ∈ xs, ∀ r', dec (f a ++ r') = some (a, r')) (r : List Nat) :
    decListAux dec xs.length ((xs.map f).flatten ++ r) = some (xs, r) := by
  induction xs generalizing r with
  | nil => rfl
  | cons a as ih =>
    rw [List.map_cons, List.flatten_cons, List.length_cons, List.append_assoc]
    unfold decListAux
    rw [h a (by simp) _]
    dsimp only
    rw [ih (fun b hb => h b (by simp [hb])) r]

theorem decList_enc {α} (dec : List Nat → Option (α × List Nat)) (f : α → List Nat)
    (xs : List α) (hlen : xs.length < 18446744073709551616)
    (h : ∀ a ∈ xs, ∀ r', dec (f a ++ r') = some (a, r')) (r : List Nat) :
    decList dec (encList f xs ++ r) = some (xs, r) := by
  unfold encList decList
  rw [List.append_assoc, decU64LE_enc _ hlen]
  dsimp only
  exact decListAux_enc dec f xs h r

theorem decPair_enc (f g : List Nat → List Nat)
    (df dg : List Nat → Option (List Nat × List Nat)) (p : List Nat × List Nat)
    (r : List Nat) (hf : ∀ r', df (f p.1 ++ r') = some (p.1, r'))
    (hg : ∀ r', dg (g p.2 ++ r') = some (p.2, r')) :
    decPair df dg (encPair f g p ++ r) = some (p, r) := by
  unfold encPair decPair
  rw [List.append_assoc, hf]
  dsimp only
  rw [hg]

theorem decBuildUnit_enc (u : BuildUnit) (h : ValidUnit u) (r : List Nat) :
    decBuildUnit (encBuildUnit u ++ r) = some (u, r) := by
  obtain ⟨h1, h2, h3, h4⟩ := h
  unfold encBuildUnit decBuildUnit
  rw [List.append_assoc, List.append_assoc, List.append_assoc,
    decBytes_enc _ h1.1]
  dsimp only
  rw [decList_enc _ _ _ h2.1 (fun a ha r' => decBytes_enc a (h2.2 a ha).1 r')]
  dsimp only
  rw [decList_enc _ _ _ h3.1 (fun a ha r' => decBytes_enc a (h3.2 a ha).1 r')]
  dsimp only
  rw [decList_enc _ _ _ h4.1 (fun a ha r' => decBytes_enc a (h4.2 a ha).1 r')]

theorem decBuildRequest_enc (m : BuildRequest) (h : ValidRequest m) (r : List Nat) :
    decBuildRequest (encBuildRequest m ++ r) = some (m, r) := by
  cases m with
  | BuildUnitReq u rel tgt data =>
    obtain ⟨hu, htgt, hdata⟩ := h
    simp only [encBuildRequest, List.append_assoc]
    unfold decBuildRequest
    rw [decU32LE_enc 0 (by omega)]
    dsimp only
    rw [decBuildUnit_enc u hu]
    dsimp only
    rw [decBool_enc]
    dsimp only
    rw [decOpt_enc _ _ _ _ (fun a ha r' => decBytes_enc a
      (htgt a (by simp [ha])).1 r')]
    dsimp only
    rw [decBytes_enc _ hdata.1]
    simp
  | TransferArtifact fu ap =>
    obtain ⟨hfu, hap⟩ := h
    simp only [encBuildRequest, List.append_assoc]
    unfold decBuildRequest
    rw [decU32LE_enc 1 (by omega)]
    dsimp only
    rw [decBytes_enc _ hfu.1]
    dsimp only
    rw [decBytes_enc _ hap.1]
    simp
  | Heartbeat =>
    show decBuildRequest (encU32LE 2 ++ r) = _
    unfold decBuildRequest
    rw [decU32LE_enc 2 (by omega)]
    simp

theorem decBuildResponse_enc (m : BuildResponse) (h : ValidResponse m) (r : List Nat) :
    decBuildResponse (encBuildResponse m ++ r) = some (m, r) := by
  cases m with
  | BuildOutput un out isErr =>
    obtain ⟨hun, hout⟩ := h
    simp only [encBuildResponse, List.append_assoc]
    unfold decBuildResponse
    rw [decU32LE_enc 0 (by omega)]
    dsimp only
    rw [decBytes_enc _ hun.1]
    dsimp only
    rw [decBytes_enc _ hout.1]
    dsimp only
    rw [decBool_enc]
    simp
  | BuildComplete un arts =>
    obtain ⟨hun, harts⟩ := h
    simp only [encBuildResponse, List.append_assoc]
    unfold decBuildResponse
    rw [decU32LE_enc 1 (by omega)]
    dsimp only
    rw [decBytes_enc _ hun.1]
    dsimp only
    rw [decList_enc _ _ _ harts.1 (fun a ha r' => decPair_enc _ _ _ _ a r'
      (fun r'' => decBytes_enc a.1 (harts.2 a ha).1.1 r'')
      (fun r'' => decBytes_enc a.2 (harts.2 a ha).2.1 r''))]
    simp
  | BuildError un err =>
    obtain ⟨hun, herr⟩ := h
    simp only [encBuildResponse, List.append_assoc]
    unfold decBuildResponse
    rw [decU32LE_enc 2 (by omega)]
    dsimp only
    rw [decBytes_enc _ hun.1]
    dsimp only
    rw [decBytes_enc _ herr.1]
    simp
  | HeartbeatAck =>
    show decBuildResponse (encU32LE 3 ++ r) = _
    unfold decBuildResponse
    rw [decU32LE_enc 3 (by omega)]
    simp

theorem decodeFramed_enc {α} (enc : α → List Nat)
    (dec : List Nat → Option (α × List Nat)) (m : α)
    (h : dec (enc m) = some (m, [])) (hlen : (enc m).length < 4294967296) :
    decodeFramed dec (encodeFramed enc m) = some (m, []) := by
  unfold encodeFramed decodeFramed
  rw [decU32BE_enc _ hlen]
  simp [List.take_length, List.drop_length, h]

end Wire

/-- C1: for every valid `BuildRequest` and `BuildResponse` message
(including the payload-free `Heartbeat` and `HeartbeatAck`), decoding
the framed bytes produced by encoding the message — the `u32`
big-endian length prefix plus the bincode payload — reproduces the
original message exactly, consuming the whole frame.  Validity asks
only what is true of every message a real run can produce: collection
and string lengths below `2^64`, bytes below 256, and an encoded
payload shorter than `2^32` (the length-prefix cast `data.len() as
u32` would otherwise wrap). -/
theorem C1_roundtrip :
    (∀ m : BuildRequest, Wire.ValidRequest m →
        (Wire.encBuildRequest m).length < 4294967296 →
        Wire.decodeFramed Wire.decBuildRequest
          (Wire.encodeFramed Wire.encBuildRequest m) = some (m, [])) ∧
    (∀ m : BuildResponse, Wire.ValidResponse m →
        (Wire.encBuildResponse m).length < 4294967296 →
        Wire.decodeFramed Wire.decBuildResponse
          (Wire.encodeFramed Wire.encBuildResponse m) = some (m, [])) := by
  constructor
  · intro m hv hlen
    refine Wire.decodeFramed_enc _ _ m ?_ hlen
    have := Wire.decBuildRequest_enc m hv []
    simpa using this
  · intro m hv hlen
    refine Wire.decodeFramed_enc _ _ m ?_ hlen
    have := Wire.decBuildResponse_enc m hv []
    simpa using this

/-- C1 witness: the payload-free `Heartbeat` request and `HeartbeatAck`
response survive the framed round trip. -/
theorem C1_witness :
    Wire.decodeFramed Wire.decBuildRequest
        (Wire.encodeFramed Wire.encBuildRequest .Heartbeat) =
      some (.Heartbeat, []) ∧
    Wire.decodeFramed Wire.decBuildResponse
        (Wire.encodeFramed Wire.encBuildResponse .HeartbeatAck) =
      some (.HeartbeatAck, []) :=
  ⟨C1_roundtrip.1 .Heartbeat (by decide) (by decide),
   C1_roundtrip.2 .HeartbeatAck (by decide) (by decide)⟩

end Tesseract
